/-
Verification of the mkgraph core (processor.py / state.py) against its
natural-language specification.

The Python source is shallowly embedded: pure string manipulation is
translated to executable Lean functions over `String` / `List Char`,
the filesystem is an explicit association list from paths to file data,
and code that can raise a Python exception is modelled in `Except`.
All list/string helpers are written by structural recursion so that
concrete witnesses evaluate by `decide` / `rfl`.
-/
import Mathlib

set_option maxRecDepth 10000

namespace Mkgraph

/-! ## Python string primitives

Helpers mirroring the exact Python `str` methods the source uses.
All are by structural recursion over `List Char`.
-/

/-- The ASCII whitespace characters recognised by the Python `str.strip`
family: space, tab, newline, carriage return, vertical tab, form feed. -/
def pyIsSpace (c : Char) : Bool :=
  c = ' ' || c = '\t' || c = '\n' || c = '\r' || c = Char.ofNat 11 || c = Char.ofNat 12

/-- Drop leading characters satisfying `p` (used for both strip directions). -/
def dropLeading (p : Char → Bool) (cs : List Char) : List Char :=
  cs.dropWhile p

/-- Python `str.strip()` on a character list. -/
def stripChars (p : Char → Bool) (cs : List Char) : List Char :=
  ((cs.dropWhile p).reverse.dropWhile p).reverse

/-- Python `str.strip()` (whitespace on both sides). -/
def pyStrip (s : String) : String :=
  ⟨stripChars pyIsSpace s.data⟩

/-- Python `str.rstrip()` (trailing whitespace only). -/
def pyRstrip (s : String) : String :=
  ⟨(s.data.reverse.dropWhile pyIsSpace).reverse⟩

/-- Python `str.strip('"')` (leading and trailing double quotes). -/
def stripQuotes (s : String) : String :=
  ⟨stripChars (· = '"') s.data⟩

/-- Python `str.lower()` (ASCII case folding; the source only ever compares
ASCII type tags and the literal heading `## sources`). -/
def pyLower (s : String) : String :=
  ⟨s.data.map Char.toLower⟩

/-- Substring test on character lists: does `needle` occur contiguously in
`hay`?  This is Python `needle in hay` for strings. -/
def listContainsSub (hay needle : List Char) : Bool :=
  match hay with
  | [] => needle = []
  | _ :: t => needle.isPrefixOf hay || listContainsSub t needle

/-- Python `needle in hay` for strings. -/
def strContains (hay needle : String) : Bool :=
  listContainsSub hay.data needle.data

/-- Python `hay.startswith(pre)`. -/
def strStartsWith (hay pre : String) : Bool :=
  pre.data.isPrefixOf hay.data

/-- One step of Python `str.replace`: scan for `pat` (non-empty),
replacing every non-overlapping occurrence left to right.
`fuel` bounds the recursion; `fuel = cs.length` suffices. -/
def replaceAux (pat rep : List Char) : Nat → List Char → List Char
  | _, [] => []
  | 0, cs => cs
  | fuel + 1, c :: t =>
    if pat.isPrefixOf (c :: t) && pat ≠ [] then
      rep ++ replaceAux pat rep fuel (t.drop (pat.length - 1))
    else
      c :: replaceAux pat rep fuel t

/-- Python `s.replace(pat, rep)` (all occurrences, left to right). -/
def pyReplace (s pat rep : String) : String :=
  ⟨replaceAux pat.data rep.data s.data.length s.data⟩

/-- Splitting step for Python `str.split(sep)` with non-empty `sep`;
keeps empty pieces, like the Python method. -/
def splitAux (sep : List Char) : Nat → List Char → List Char → List (List Char)
  | _, acc, [] => [acc.reverse]
  | 0, acc, cs => [acc.reverse ++ cs]
  | fuel + 1, acc, c :: t =>
    if sep.isPrefixOf (c :: t) && sep ≠ [] then
      acc.reverse :: splitAux sep fuel [] (t.drop (sep.length - 1))
    else
      splitAux sep fuel (c :: acc) t

/-- Python `s.split(sep)` for a non-empty literal separator. -/
def pySplit (s sep : String) : List String :=
  (splitAux sep.data s.data.length [] s.data).map fun cs => ⟨cs⟩

/-- Python `"\n".join(lines)` and friends. -/
def pyJoin (sep : String) (parts : List String) : String :=
  match parts with
  | [] => ""
  | p :: ps => ps.foldl (fun acc q => acc ++ sep ++ q) p

/-- Python `response[:200]` style character truncation. -/
def pyTake (s : String) (n : Nat) : String :=
  ⟨s.data.take n⟩

/-! ## Entity record and merge (processor.py lines 16-35, 104-129) -/

/-- `Entity` dataclass from processor.py: a name, a type tag, a free-text
description and the list of source identifiers. -/
structure Entity where
  name : String
  entity_type : String
  description : String
  sources : List String
deriving DecidableEq, Repr, Inhabited

/-- `normalize_entity_name` from processor.py:
`name.lower().strip().replace("_", " ").replace("-", " ")`. -/
def normalize_entity_name (name : String) : String :=
  pyReplace (pyReplace (pyStrip (pyLower name)) "_" " ") "-" " "

/-- The dictionary key used by `merge_entities`:
`f"{normalize_entity_name(entity.name)}:{entity.entity_type}"`. -/
def mergeKey (e : Entity) : String :=
  normalize_entity_name e.name ++ ":" ++ e.entity_type

/-- The inner source loop of `merge_entities`: append `s` unless already
present (`if source not in existing.sources: existing.sources.append(source)`). -/
def insertSource (srcs : List String) (s : String) : List String :=
  if s ∈ srcs then srcs else srcs ++ [s]

/-- Merging one incoming record into the stored record for the same key
(processor.py lines 114-124): union the sources in first-seen order, keep
the strictly longer non-empty description. -/
def mergeInto (existing incoming : Entity) : Entity :=
  { existing with
    sources := incoming.sources.foldl insertSource existing.sources
    description :=
      if incoming.description ≠ "" ∧
          incoming.description.length > existing.description.length then
        incoming.description
      else existing.description }

/-- The accumulating map of `merge_entities`, as an association list in
insertion order (Python dicts preserve insertion order). -/
def MergedAcc := List (String × Entity)

/-- Lookup in the accumulator (Python `key in merged` / `merged[key]`). -/
def lookupKey : List (String × Entity) → String → Option Entity
  | [], _ => none
  | p :: t, k => if p.1 = k then some p.2 else lookupKey t k

/-- One iteration of the `merge_entities` loop body for a single entity. -/
def mergeStep (acc : List (String × Entity)) (e : Entity) : List (String × Entity) :=
  let key := mergeKey e
  if (lookupKey acc key).isSome then
    acc.map fun p => if p.1 = key then (p.1, mergeInto p.2 e) else p
  else
    acc ++ [(key, e)]

/-- `merge_entities` from processor.py: fold every entity of every list
into the keyed accumulator, then return the stored records in first-seen
key order (`list(merged.values())`). -/
def merge_entities (entity_lists : List (List Entity)) : List Entity :=
  ((entity_lists.flatten).foldl mergeStep []).map (·.2)

/-! ## Change tracker (state.py) -/

/-- A file on disk: raw byte content plus a modification time.  The mtime
field exists only to show that change detection ignores it (state.py
reads `st_mtime` into a local and never uses it, lines 96-97). -/
structure FileData where
  content : List Nat
  mtime : Int
deriving DecidableEq, Repr

/-- The filesystem as an association list from path to file data.  A path
with no entry models a file that does not exist or cannot be read (the
`OSError` / `FileNotFoundError` paths of state.py). -/
def readFile : List (String × FileData) → String → Option FileData
  | [], _ => none
  | q :: t, p => if q.1 = p then some q.2 else readFile t p

/-- `FileState` dataclass from state.py: path, content hash, timestamp. -/
structure FileState where
  path : String
  hash : String
  last_processed : String
deriving DecidableEq, Repr

/-- `State` dataclass from state.py: the processed-files dict (insertion
order preserved, as in Python) and the last-run timestamp. -/
structure State where
  processed_files : List (String × FileState)
  last_run : Option String
deriving DecidableEq, Repr

/-- Python dict lookup on the processed-files map. -/
def stateLookup : List (String × FileState) → String → Option FileState
  | [], _ => none
  | q :: t, p => if q.1 = p then some q.2 else stateLookup t p

/-- Python dict assignment `state.processed_files[path] = fs`: replace in
place if the key exists, else append. -/
def stateUpsert : List (String × FileState) → String → FileState → List (String × FileState)
  | [], p, v => [(p, v)]
  | q :: t, p, v => if q.1 = p then (p, v) :: t else q :: stateUpsert t p v

/-- `compute_file_hash` (state.py and processor.py): the SHA-256 hex
digest of the file bytes.  The digest is modelled as an injective
fingerprint of the byte content; hash collisions are outside the model
(the spec explicitly treats a collision as equality). -/
def compute_file_hash (content : List Nat) : String :=
  String.intercalate "," (content.map toString)

/-- `has_file_changed` from state.py: a path with no stored record is
changed; a stat/read failure is changed (fail open); otherwise the file
is changed iff the current content hash differs from the stored hash.
The mtime is read into a dead local and never compared. -/
def has_file_changed (fs : List (String × FileData)) (file_path : String)
    (state : State) : Bool :=
  match stateLookup state.processed_files file_path with
  | none => true
  | some stored =>
    match readFile fs file_path with
    | none => true
    | some f =>
      let _current_mtime := f.mtime
      let _stored_mtime := stored.hash
      compute_file_hash f.content != stored.hash

/-- `mark_file_processed` from state.py: hash the file now and upsert its
record with the current timestamp; reading the file can raise, hence the
`Option`. -/
def mark_file_processed (fs : List (String × FileData)) (file_path : String)
    (state : State) (now : String) : Option State :=
  (readFile fs file_path).map fun f =>
    { state with
      processed_files :=
        stateUpsert state.processed_files file_path
          ⟨file_path, compute_file_hash f.content, now⟩ }

/-- `get_unprocessed_files` from state.py:
`[fp for fp in file_paths if has_file_changed(fp, state)]`. -/
def get_unprocessed_files (fs : List (String × FileData)) (file_paths : List String)
    (state : State) : List String :=
  file_paths.filter fun fp => has_file_changed fs fp state

/-! ## Directory processing orchestrator (processor.py lines 307-423) -/

/-- Observable actions of a directory-processing run, in program order:
one note write per (entity, source) pair handed to
`create_or_update_note`, an in-memory tracker mark
(`mark_file_processed`), and the on-disk state commit (`save_state`). -/
inductive Event where
  | writeNote (entityName : String) (src : String)
  | markProcessed (path : String)
  | saveState
deriving DecidableEq, Repr

/-- The note-write invocations of `process_batch` (processor.py lines
329-344): the extraction output for the batch is merged, then one write
is issued per entity and per source of that entity, in order. -/
def processBatchEvents (extract : List String → List Entity) (batch : List String) :
    List Event :=
  ((merge_entities [extract batch]).map fun e =>
    e.sources.map (Event.writeNote e.name)).flatten

/-- The batching loop of `process_directory`
(`for i in range(0, len(files), batch_size)`): process one batch, then
mark each of its files in the in-memory state; no state commit happens
inside the loop.  The fuel starts at the file count and bounds the loop. -/
def processChunks (extract : List String → List Entity) (bs : Nat) :
    Nat → List String → List Event
  | _, [] => []
  | 0, _ => []
  | fuel + 1, files =>
    processBatchEvents extract (files.take bs) ++
      (files.take bs).map Event.markProcessed ++
      processChunks extract bs fuel (files.drop bs)

/-- The event trace of a `process_directory` run with state tracking
enabled, over the already-selected file list: an empty selection returns
before doing anything (processor.py lines 386-389); otherwise the batches
run in order and `save_state` runs once, after all batches
(processor.py lines 414-418). -/
def process_directory_events (extract : List String → List Entity)
    (files : List String) (batch_size : Nat) : List Event :=
  if files = [] then []
  else processChunks extract batch_size files.length files ++ [Event.saveState]

/-- The contiguous fixed-size partition of the selected files described
by the spec (section 4.5): chunks of `bs` files in discovery order.  Used
as the declarative reference for the batching loop. -/
def chunksOf (bs : Nat) : Nat → List String → List (List String)
  | _, [] => []
  | 0, _ => []
  | fuel + 1, files => files.take bs :: chunksOf bs fuel (files.drop bs)

/-! ## JSON values and `json.loads`

`parse_entities_response` and the note frontmatter both go through the
Python `json` module.  The decoder below follows the strict `json.loads`
grammar (with the CPython extensions `NaN` / `Infinity` / `-Infinity`):
numbers are kept exact as mantissa and decimal exponent, object member
lists keep their textual order, and the whole input must be consumed.
One deliberate model boundary: a lone `\u` surrogate escape is rejected
where CPython would build a lone-surrogate string (no claim exercises
such input).
-/

/-- A decoded Python json value.  `num m p` stands for `m * 10 ^ p`. -/
inductive Json where
  | null
  | bool (b : Bool)
  | num (m : Int) (p : Int)
  | str (s : String)
  | arr (items : List Json)
  | obj (members : List (String × Json))
  | nan
  | inf (neg : Bool)
deriving Inhabited

/-- JSON whitespace (space, tab, newline, carriage return). -/
def jsonSkipWs : List Char → List Char
  | [] => []
  | c :: t => if c = ' ' ∨ c = '\t' ∨ c = '\n' ∨ c = '\r' then jsonSkipWs t else c :: t

/-- Hexadecimal digit value. -/
def hexVal? (c : Char) : Option Nat :=
  if '0' ≤ c ∧ c ≤ '9' then some (c.toNat - 48)
  else if 'a' ≤ c ∧ c ≤ 'f' then some (c.toNat - 87)
  else if 'A' ≤ c ∧ c ≤ 'F' then some (c.toNat - 55)
  else none

/-- Four hex digits, as used by `\uXXXX` escapes. -/
def hex4Val? : List Char → Option (Nat × List Char)
  | a :: b :: c :: d :: t =>
    match hexVal? a, hexVal? b, hexVal? c, hexVal? d with
    | some x, some y, some z, some w => some (((x * 16 + y) * 16 + z) * 16 + w, t)
    | _, _, _, _ => none
  | _ => none

/-- JSON string body, after the opening quote: returns the decoded
characters and the input after the closing quote.  Raw control
characters are rejected (strict mode), escapes are decoded, and a
`\uXXXX` high surrogate must be followed by a low surrogate. -/
def parseJsonStringAux : Nat → List Char → Option (List Char × List Char)
  | 0, _ => none
  | _, [] => none
  | fuel + 1, c :: t =>
    if c = '"' then some ([], t)
    else if c = '\\' then
      match t with
      | [] => none
      | e :: t2 =>
        if e = '"' then (parseJsonStringAux fuel t2).map fun (s, r) => ('"' :: s, r)
        else if e = '\\' then (parseJsonStringAux fuel t2).map fun (s, r) => ('\\' :: s, r)
        else if e = '/' then (parseJsonStringAux fuel t2).map fun (s, r) => ('/' :: s, r)
        else if e = 'b' then
          (parseJsonStringAux fuel t2).map fun (s, r) => (Char.ofNat 8 :: s, r)
        else if e = 'f' then
          (parseJsonStringAux fuel t2).map fun (s, r) => (Char.ofNat 12 :: s, r)
        else if e = 'n' then (parseJsonStringAux fuel t2).map fun (s, r) => ('\n' :: s, r)
        else if e = 'r' then (parseJsonStringAux fuel t2).map fun (s, r) => ('\r' :: s, r)
        else if e = 't' then (parseJsonStringAux fuel t2).map fun (s, r) => ('\t' :: s, r)
        else if e = 'u' then
          match hex4Val? t2 with
          | none => none
          | some (code, t3) =>
            if code < 0xD800 ∨ 0xDFFF < code then
              (parseJsonStringAux fuel t3).map fun (s, r) => (Char.ofNat code :: s, r)
            else if code ≤ 0xDBFF then
              match t3 with
              | '\\' :: 'u' :: t4 =>
                match hex4Val? t4 with
                | some (lo, t5) =>
                  if 0xDC00 ≤ lo ∧ lo ≤ 0xDFFF then
                    (parseJsonStringAux fuel t5).map fun (s, r) =>
                      (Char.ofNat (0x10000 + (code - 0xD800) * 0x400 + (lo - 0xDC00)) :: s, r)
                  else none
                | none => none
              | _ => none
            else none
        else none
    else if c.toNat < 0x20 then none
    else (parseJsonStringAux fuel t).map fun (s, r) => (c :: s, r)

/-- Decimal digit run to a natural number. -/
def digitsVal (ds : List Char) : Nat :=
  ds.foldl (fun a c => a * 10 + (c.toNat - 48)) 0

/-- JSON number at the head of the input: optional minus, integer part
without leading zeros, optional fraction, optional exponent. -/
def parseJsonNumber (cs : List Char) : Option (Json × List Char) :=
  let negAndRest : Bool × List Char :=
    match cs with
    | '-' :: t => (true, t)
    | _ => (false, cs)
  let neg := negAndRest.1
  let cs1 := negAndRest.2
  let intDigits := cs1.takeWhile Char.isDigit
  let rest1 := cs1.dropWhile Char.isDigit
  if intDigits = [] then none
  else if intDigits.length > 1 ∧ intDigits.headD '0' = '0' then none
  else
    let fracAndRest : List Char × List Char :=
      match rest1 with
      | '.' :: r2 => (r2.takeWhile Char.isDigit, r2.dropWhile Char.isDigit)
      | _ => ([], rest1)
    let fd := fracAndRest.1
    let rest2 := fracAndRest.2
    if rest1 ≠ rest2 ∧ fd = [] then none
    else
      let expParse : Option (Int × List Char) :=
        match rest2 with
        | e :: r3 =>
          if e = 'e' ∨ e = 'E' then
            let signAndRest : Bool × List Char :=
              match r3 with
              | '-' :: r4 => (true, r4)
              | '+' :: r4 => (false, r4)
              | _ => (false, r3)
            let ed := signAndRest.2.takeWhile Char.isDigit
            if ed = [] then none
            else
              some (if signAndRest.1 then -(digitsVal ed : Int) else (digitsVal ed : Int),
                signAndRest.2.dropWhile Char.isDigit)
          else some (0, rest2)
        | [] => some (0, rest2)
      match expParse with
      | none => none
      | some (ex, rest3) =>
        let mant : Int := (digitsVal (intDigits ++ fd) : Int)
        some (Json.num (if neg then -mant else mant) (ex - (fd.length : Int)), rest3)

mutual

/-- One JSON value at the head of the input (whitespace allowed first). -/
def parseJsonValue : Nat → List Char → Option (Json × List Char)
  | 0, _ => none
  | fuel + 1, cs =>
    match jsonSkipWs cs with
    | [] => none
    | c :: t =>
      if c = '"' then
        (parseJsonStringAux (t.length + 1) t).map fun (s, r) => (Json.str ⟨s⟩, r)
      else if c = '[' then
        match jsonSkipWs t with
        | ']' :: r => some (Json.arr [], r)
        | t2 => (parseJsonItems fuel t2).map fun (xs, r) => (Json.arr xs, r)
      else if c = '{' then
        match jsonSkipWs t with
        | '}' :: r => some (Json.obj [], r)
        | t2 => (parseJsonMembers fuel t2).map fun (ms, r) => (Json.obj ms, r)
      else if ("true").data.isPrefixOf (c :: t) then some (Json.bool true, (c :: t).drop 4)
      else if ("false").data.isPrefixOf (c :: t) then some (Json.bool false, (c :: t).drop 5)
      else if ("null").data.isPrefixOf (c :: t) then some (Json.null, (c :: t).drop 4)
      else if ("NaN").data.isPrefixOf (c :: t) then some (Json.nan, (c :: t).drop 3)
      else if ("Infinity").data.isPrefixOf (c :: t) then
        some (Json.inf false, (c :: t).drop 8)
      else if ("-Infinity").data.isPrefixOf (c :: t) then
        some (Json.inf true, (c :: t).drop 9)
      else parseJsonNumber (c :: t)

/-- Comma-separated array items, ending at `]`. -/
def parseJsonItems : Nat → List Char → Option (List Json × List Char)
  | 0, _ => none
  | fuel + 1, cs =>
    match parseJsonValue fuel cs with
    | none => none
    | some (v, r) =>
      match jsonSkipWs r with
      | ',' :: r2 =>
        match parseJsonItems fuel r2 with
        | none => none
        | some (xs, r3) => some (v :: xs, r3)
      | ']' :: r2 => some ([v], r2)
      | _ => none

/-- Comma-separated object members, ending at `}`. -/
def parseJsonMembers : Nat → List Char → Option (List (String × Json) × List Char)
  | 0, _ => none
  | fuel + 1, cs =>
    match jsonSkipWs cs with
    | '"' :: t =>
      match parseJsonStringAux (t.length + 1) t with
      | none => none
      | some (k, r) =>
        match jsonSkipWs r with
        | ':' :: r2 =>
          match parseJsonValue fuel r2 with
          | none => none
          | some (v, r3) =>
            match jsonSkipWs r3 with
            | ',' :: r4 =>
              match parseJsonMembers fuel r4 with
              | none => none
              | some (ms, r5) => some ((⟨k⟩, v) :: ms, r5)
            | '}' :: r4 => some ([(⟨k⟩, v)], r4)
            | _ => none
        | _ => none
    | _ => none

end

/-- Python `json.loads`: decode one value, demand the rest be whitespace;
`none` models `json.JSONDecodeError`. -/
def jsonLoads (s : String) : Option Json :=
  match parseJsonValue (s.data.length + 2) s.data with
  | some (v, r) => if jsonSkipWs r = [] then some v else none
  | none => none

/-! ## Response parser (processor.py lines 61-101) -/

/-- The Python exceptions that can escape `parse_entities_response`:
`TypeError` from iterating a non-iterable decode result, and
`AttributeError` from calling `.get` on a non-dict item or `.lower()` /
`.strip()` on a non-string field.  `nonStrField` is a model boundary: a
truthy non-string `source` or a non-string `description` would make
Python silently build a record outside the declared `Entity` field types
(the dataclass annotates `str` but does not enforce it); the embedding
flags such items instead of constructing an ill-typed record. -/
inductive PyErr where
  | typeError
  | attributeError
  | nonStrField
deriving DecidableEq, Repr

/-- Python truthiness of a decoded json value (`if not source`). -/
def pyTruthy : Json → Bool
  | .null => false
  | .bool b => b
  | .num m _ => m != 0
  | .str s => s != ""
  | .arr [] => false
  | .arr (_ :: _) => true
  | .obj [] => false
  | .obj (_ :: _) => true
  | .nan => true
  | .inf _ => true

/-- Python `item.get(key, default)` on a decoded object: duplicate keys
in the JSON text resolve to the last occurrence, as `json.loads` builds
the dict. -/
def objGet (ms : List (String × Json)) (k : String) (dflt : Json) : Json :=
  match ms.reverse.find? fun p => p.1 = k with
  | some p => p.2
  | none => dflt

/-- The source attribution of `parse_entities_response` (lines 90-92):
keep the item's own source value; when it is falsy and fallback sources
were supplied, use the first fallback source instead. -/
def attributedSource (fallback_sources : List String) (source0 : Json) : Json :=
  if ¬ pyTruthy source0 ∧ fallback_sources ≠ [] then
    Json.str (fallback_sources.headD "")
  else source0

/-- One iteration of the entity loop of `parse_entities_response`
(processor.py lines 80-99) on a single decoded item.  `ok none` models
`continue` (unknown type tag, or empty name after trimming); the final
sources field is `[source]` when the attributed source is truthy, else
`[]`. -/
def processItem (fallback_sources : List String) (item : Json) :
    Except PyErr (Option Entity) :=
  match item with
  | .obj ms =>
    match objGet ms "type" (.str "") with
    | .str t0 =>
      if pyLower t0 ∉ (["person", "organization", "topic"] : List String) then
        .ok none
      else
        match objGet ms "name" (.str "") with
        | .str n0 =>
          if pyStrip n0 = "" then .ok none
          else
            match (if pyTruthy (attributedSource fallback_sources
                    (objGet ms "source" (.str ""))) then
                some (attributedSource fallback_sources (objGet ms "source" (.str "")))
              else none),
              objGet ms "description" (.str "") with
            | none, .str d => .ok (some ⟨pyStrip n0, pyLower t0, d, []⟩)
            | some (.str s), .str d => .ok (some ⟨pyStrip n0, pyLower t0, d, [s]⟩)
            | _, _ => .error .nonStrField
        | _ => .error .attributeError
    | _ => .error .attributeError
  | _ => .error .attributeError

/-- An item all of whose parser-relevant fields decode to strings
whenever present (absence yields the string default, so absence is
covered). -/
def WellShapedItem (ms : List (String × Json)) : Prop :=
  (∃ s, objGet ms "type" (.str "") = .str s) ∧
    (∃ s, objGet ms "name" (.str "") = .str s) ∧
    (∃ s, objGet ms "source" (.str "") = .str s) ∧
    (∃ s, objGet ms "description" (.str "") = .str s)

/-- The accumulating entity loop: the first exception aborts the whole
call, dropping the entities collected so far. -/
def entitiesLoop (fallback_sources : List String) : List Json → Except PyErr (List Entity)
  | [] => .ok []
  | item :: rest =>
    match processItem fallback_sources item with
    | .error e => .error e
    | .ok none => entitiesLoop fallback_sources rest
    | .ok (some ent) =>
      match entitiesLoop fallback_sources rest with
      | .error e => .error e
      | .ok es => .ok (ent :: es)

/-- `for item in data` over the decode result: a list iterates its items;
a string iterates its characters (each a one-character string without
`.get`, so any non-empty string raises `AttributeError` at the first
item); a dict iterates its keys (strings, same effect); every other
value raises `TypeError` (not iterable). -/
def entitiesOfData (fallback_sources : List String) : Json → Except PyErr (List Entity)
  | .arr items => entitiesLoop fallback_sources items
  | .str s => if s = "" then .ok [] else .error .attributeError
  | .obj [] => .ok []
  | .obj (_ :: _) => .error .attributeError
  | _ => .error .typeError

/-- `re.search(r'\[.*\]', response, re.DOTALL)`: with the greedy dot-all
body, a match exists exactly when some `[` is followed by a later `]`,
and the match runs from the first such `[` through the last `]` of the
whole string. -/
def bracketSlice (s : String) : Option String :=
  match s.data.findIdx? (· = '[') with
  | none => none
  | some i =>
    match s.data.reverse.findIdx? (· = ']') with
    | none => none
    | some jRev =>
      let j := s.data.length - 1 - jRev
      if i < j then some ⟨(s.data.drop i).take (j - i + 1)⟩ else none

/-- The warning printed on a double decode failure, with the offending
text truncated to 200 characters (`response[:200]`). -/
def parseWarning (response : String) : String :=
  "Warning: Could not parse LLM response as JSON: " ++ pyTake response 200

/-- `parse_entities_response` from processor.py: strict decode of the
whole text, else decode of the bracket-bounded slice, else warn and
return no entities.  Printed warnings are made explicit as the first
component of the result; Python exceptions from the item loop surface as
`Except.error`. -/
def parse_entities_response (response : String) (fallback_sources : List String) :
    Except PyErr (List String × List Entity) :=
  match jsonLoads response with
  | some data =>
    match entitiesOfData fallback_sources data with
    | .error e => .error e
    | .ok es => .ok ([], es)
  | none =>
    match bracketSlice response with
    | some sub =>
      match jsonLoads sub with
      | some data =>
        match entitiesOfData fallback_sources data with
        | .error e => .error e
        | .ok es => .ok ([], es)
      | none => .ok ([parseWarning response], [])
    | none => .ok ([parseWarning response], [])

/-! ## Note synthesis (processor.py lines 157-268) -/

/-- Hex digit character (lowercase, as `json.dumps` emits). -/
def hexDigitChar (n : Nat) : Char :=
  if n < 10 then Char.ofNat (48 + n) else Char.ofNat (87 + n)

/-- The escaping `json.dumps` (default `ensure_ascii=True`) applies to
one string character: quote, backslash and the short control escapes,
`\uXXXX` for other control or non-ASCII characters.  Code points above
the BMP (which need a surrogate pair) are outside the model; every
identifier in the repository is ASCII. -/
def jsonEscapeChar (c : Char) : List Char :=
  if c = '"' then ['\\', '"']
  else if c = '\\' then ['\\', '\\']
  else if c = '\n' then ['\\', 'n']
  else if c = '\t' then ['\\', 't']
  else if c = '\r' then ['\\', 'r']
  else if c = Char.ofNat 8 then ['\\', 'b']
  else if c = Char.ofNat 12 then ['\\', 'f']
  else if c.toNat < 0x20 ∨ 0x7e < c.toNat then
    '\\' :: 'u' :: [hexDigitChar (c.toNat / 4096 % 16), hexDigitChar (c.toNat / 256 % 16),
      hexDigitChar (c.toNat / 16 % 16), hexDigitChar (c.toNat % 16)]
  else [c]

/-- `json.dumps(l)` for a list of strings, as `create_new_note` uses it. -/
def jsonDumpStringList (l : List String) : String :=
  "[" ++ pyJoin ", "
    (l.map fun s => "\"" ++ (⟨(s.data.map jsonEscapeChar).flatten⟩ : String) ++ "\"") ++ "]"

/-- `create_new_note` from processor.py (lines 209-223). -/
def create_new_note (entity : Entity) (source_file : String) : String :=
  let base := "---\nsources: " ++ jsonDumpStringList [source_file] ++ "\n---\n\n# " ++
    entity.name ++ "\n\n"
  let base := if entity.description ≠ "" then base ++ entity.description ++ "\n" else base
  base ++ "\n## Sources\n\n- " ++ source_file ++ "\n"

/-- The frontmatter scan of `update_note_with_source` (lines 231-243):
walk the lines, entering frontmatter at the first `---` line, breaking
at the second, remembering the last line in between whose stripped form
starts with `sources:`. -/
def scanSourcesLineGo : Nat → Bool → Option Nat → List String → Option Nat
  | _, _, acc, [] => acc
  | i, inFm, acc, l :: ls =>
    if pyStrip l = "---" then
      if inFm then acc else scanSourcesLineGo (i + 1) true acc ls
    else
      scanSourcesLineGo (i + 1) inFm
        (if inFm ∧ strStartsWith (pyStrip l) "sources:" then some i else acc) ls

/-- Index of the frontmatter `sources:` line, if any. -/
def scanSourcesLine (lines : List String) : Option Nat :=
  scanSourcesLineGo 0 false none lines

/-- One attempt of the regex `sources:\s*\[(.*?)\]` at the current
position: the literal, a whitespace run, `[`, then the lazy group up to
the first `]`. -/
def sourcesBracketAt (cs : List Char) : Option (List Char) :=
  if ("sources:").data.isPrefixOf cs then
    match (cs.drop 8).dropWhile pyIsSpace with
    | '[' :: r =>
      if (r.takeWhile (· ≠ ']')).length < r.length then some (r.takeWhile (· ≠ ']'))
      else none
    | _ => none
  else none

/-- `re.search` of `sources:\s*\[(.*?)\]` over one line: try each start
position left to right, return the first capture group. -/
def sourcesBracketSearch : Nat → List Char → Option (List Char)
  | _, [] => none
  | 0, _ => none
  | fuel + 1, cs =>
    match sourcesBracketAt cs with
    | some g => some g
    | none => sourcesBracketSearch fuel (cs.drop 1)

/-- `update_note_with_source` from processor.py (lines 226-268): splice
the new source into the frontmatter `sources:` line (unless the joined
existing entries already contain it as a substring) and insert a `- src`
line directly under the `## Sources` heading, appending a new section if
the heading is missing.  The entity argument is accepted and ignored,
exactly as in the source. -/
def update_note_with_source (existing_content : String) (_entity : Entity)
    (source_file : String) : String :=
  let lines := pySplit existing_content "\n"
  let lines :=
    match scanSourcesLine lines with
    | none => lines
    | some i =>
      match sourcesBracketSearch ((lines.getD i "").data.length + 1)
          (lines.getD i "").data with
      | none => lines
      | some g =>
        let existing_sources := pySplit (stripQuotes ⟨g⟩) "\",\""
        if ¬ strContains (String.join existing_sources) source_file then
          lines.set i ("sources: [" ++
            pyJoin ", " (existing_sources ++ ["\"" ++ source_file ++ "\""]) ++ "]")
        else lines
  let lines :=
    match lines.findIdx? (fun l => pyLower (pyStrip l) = "## sources") with
    | some i => lines.take (i + 1) ++ ["- " ++ source_file] ++ lines.drop (i + 1)
    | none => lines ++ ["\n## Sources\n\n- " ++ source_file]
  pyJoin "\n" lines

/-- The write decision of `create_or_update_note` (processor.py lines
183-206) for the note content: given the current content of the note
file (`none` when it does not exist), `some c` means the call writes
`c`, `none` means it returns without writing.  The path-side effects
(directory creation, filename sanitisation) do not affect the bytes. -/
def create_or_update_note (existing : Option String) (entity : Entity)
    (source_file : String) (update_existing : Bool) : Option String :=
  match existing with
  | some existing_content =>
    if update_existing then
      if strContains existing_content source_file then
        if entity.description ≠ "" ∧
            ¬ strContains existing_content entity.description then
          some (pyRstrip existing_content ++ "\n\n" ++ entity.description ++ "\n")
        else none
      else some (update_note_with_source existing_content entity source_file)
    else some (create_new_note entity source_file)
  | none => some (create_new_note entity source_file)

/-- The note-file content after one `create_or_update_note` call with
`update_existing = True` (the orchestrated path). -/
def applyNote (existing : Option String) (entity : Entity) (source_file : String) :
    Option String :=
  match create_or_update_note existing entity source_file true with
  | some c => some c
  | none => existing

/-- The text after the first `:` of a line (used to read the frontmatter
`sources:` value). -/
def afterColon (cs : List Char) : List Char :=
  (cs.dropWhile (· ≠ ':')).drop 1

/-- The frontmatter source list of a note, read back in the JSON form
`create_new_note` writes it (`sources: ["a.md"]`, via `json.dumps`):
locate the frontmatter `sources:` line exactly as the update code does,
then decode the text after the colon as a JSON array of strings.  `none`
means the line is missing or its value is no longer a valid string
list. -/
def frontmatter_sources (content : String) : Option (List String) :=
  match scanSourcesLine (pySplit content "\n") with
  | none => none
  | some i =>
    match jsonLoads ⟨afterColon ((pySplit content "\n").getD i "").data⟩ with
    | some (Json.arr xs) => allStrings xs
    | _ => none
where
  allStrings : List Json → Option (List String)
  | [] => some []
  | Json.str s :: t => (allStrings t).map (s :: ·)
  | _ => none

/-- The identifiers listed in the `## Sources` section: the lines after
the heading (matched as the code matches it, stripped and lowercased)
that start with `- `. -/
def section_sources (content : String) : List String :=
  match (pySplit content "\n").findIdx? (fun l => pyLower (pyStrip l) = "## sources") with
  | none => []
  | some i =>
    (((pySplit content "\n").drop (i + 1)).filter fun l => strStartsWith l "- ").map
      fun l => (⟨l.data.drop 2⟩ : String)

/-! ### Characterisation of the merge accumulator -/

theorem mergeKey_mergeInto (a e : Entity) : mergeKey (mergeInto a e) = mergeKey a := rfl

theorem mem_foldl_insertSource (l : List String) (srcs : List String) (s : String) :
    s ∈ l.foldl insertSource srcs ↔ s ∈ srcs ∨ s ∈ l := by
  induction l generalizing srcs with
  | nil => simp
  | cons x t ih =>
    simp only [List.foldl_cons, ih, insertSource, List.mem_cons]
    by_cases hx : x ∈ srcs
    · simp only [if_pos hx]
      constructor
      · rintro (h | h)
        · exact Or.inl h
        · exact Or.inr (Or.inr h)
      · rintro (h | h | h)
        · exact Or.inl h
        · exact Or.inl (h ▸ hx)
        · exact Or.inr h
    · simp only [if_neg hx, List.mem_append, List.mem_singleton]
      tauto

theorem mem_sources_mergeInto (a e : Entity) (s : String) :
    s ∈ (mergeInto a e).sources ↔ s ∈ a.sources ∨ s ∈ e.sources := by
  simp [mergeInto, mem_foldl_insertSource]

theorem descLen_mergeInto (a e : Entity) :
    (mergeInto a e).description.length =
      max a.description.length e.description.length := by
  simp only [mergeInto]
  split
  · next h => omega
  · next h =>
    rcases not_and_or.mp h with h1 | h2
    · have : e.description = "" := not_not.mp h1
      simp [this]
    · omega

theorem mergeStep_of_lookup_none (acc : List (String × Entity)) (e : Entity)
    (h : lookupKey acc (mergeKey e) = none) :
    mergeStep acc e = acc ++ [(mergeKey e, e)] := by
  simp [mergeStep, h]

theorem mergeStep_of_lookup_some (acc : List (String × Entity)) (e : Entity) (a : Entity)
    (h : lookupKey acc (mergeKey e) = some a) :
    mergeStep acc e =
      acc.map fun p => if p.1 = mergeKey e then (p.1, mergeInto p.2 e) else p := by
  simp [mergeStep, h]

theorem lookupKey_append_single (acc : List (String × Entity)) (k0 k : String) (e : Entity) :
    lookupKey (acc ++ [(k0, e)]) k =
      match lookupKey acc k with
      | some a => some a
      | none => if k0 = k then some e else none := by
  induction acc with
  | nil => simp [lookupKey]
  | cons p t ih =>
    by_cases hp : p.1 = k
    · simp [lookupKey, hp]
    · simpa [lookupKey, hp] using ih

theorem lookupKey_map_update (acc : List (String × Entity)) (k0 k : String)
    (g : Entity → Entity) :
    lookupKey (acc.map fun p => if p.1 = k0 then (p.1, g p.2) else p) k =
      if k0 = k then (lookupKey acc k).map g else lookupKey acc k := by
  induction acc with
  | nil => simp [lookupKey]
  | cons p t ih =>
    by_cases hp0 : p.1 = k0
    · by_cases hk : k0 = k
      · simp [lookupKey, hp0, hk]
      · have hpk : ¬ p.1 = k := by rw [hp0]; exact hk
        simpa [lookupKey, hp0, hpk, hk] using ih
    · by_cases hpk : p.1 = k
      · subst hpk
        have hk : ¬ k0 = p.1 := fun h => hp0 h.symm
        simp [lookupKey, hp0, hk]
      · simpa [lookupKey, hp0, hpk] using ih

theorem lookupKey_mergeStep (acc : List (String × Entity)) (e : Entity) (k : String) :
    lookupKey (mergeStep acc e) k =
      if mergeKey e = k then
        match lookupKey acc k with
        | some a => some (mergeInto a e)
        | none => some e
      else lookupKey acc k := by
  cases hl : lookupKey acc (mergeKey e) with
  | none =>
    rw [mergeStep_of_lookup_none acc e hl, lookupKey_append_single]
    by_cases hk : mergeKey e = k
    · subst hk; simp [hl]
    · simp only [if_neg hk]
      cases hx : lookupKey acc k with
      | none => simp [hk]
      | some a => simp
  | some a =>
    rw [mergeStep_of_lookup_some acc e a hl,
      lookupKey_map_update acc (mergeKey e) k (fun x => mergeInto x e)]
    by_cases hk : mergeKey e = k
    · subst hk; simp [hl]
    · simp [hk]

theorem lookup_foldl_none (es : List Entity) (acc : List (String × Entity)) (k : String) :
    lookupKey (es.foldl mergeStep acc) k = none ↔
      (lookupKey acc k = none ∧ ∀ e ∈ es, mergeKey e ≠ k) := by
  induction es generalizing acc with
  | nil => simp
  | cons e t ih =>
    simp only [List.foldl_cons, ih, List.mem_cons]
    rw [lookupKey_mergeStep]
    by_cases hk : mergeKey e = k
    · simp only [if_pos hk]
      constructor
      · intro ⟨h1, _⟩
        cases hx : lookupKey acc k with
        | none => rw [hx] at h1; simp at h1
        | some a => rw [hx] at h1; simp at h1
      · rintro ⟨_, h2⟩
        exact absurd hk (h2 e (Or.inl rfl))
    · simp only [if_neg hk]
      constructor
      · rintro ⟨h1, h2⟩
        refine ⟨h1, fun x hx => ?_⟩
        rcases hx with rfl | hx
        · exact hk
        · exact h2 x hx
      · rintro ⟨h1, h2⟩
        exact ⟨h1, fun x hx => h2 x (Or.inr hx)⟩

theorem lookup_foldl_sources (es : List Entity) (acc : List (String × Entity))
    (k : String) (ent : Entity)
    (h : lookupKey (es.foldl mergeStep acc) k = some ent) (s : String) :
    s ∈ ent.sources ↔
      (∃ a, lookupKey acc k = some a ∧ s ∈ a.sources) ∨
        ∃ e ∈ es, mergeKey e = k ∧ s ∈ e.sources := by
  induction es generalizing acc with
  | nil =>
    simp only [List.foldl_nil] at h
    simp [h]
  | cons e t ih =>
    simp only [List.foldl_cons] at h
    rw [ih (mergeStep acc e) h, lookupKey_mergeStep]
    by_cases hk : mergeKey e = k
    · simp only [if_pos hk]
      cases hx : lookupKey acc k with
      | none =>
        simp only [Option.some.injEq, List.mem_cons]
        constructor
        · rintro (⟨a, rfl, hs⟩ | ⟨x, hx1, hx2, hx3⟩)
          · exact Or.inr ⟨e, Or.inl rfl, hk, hs⟩
          · exact Or.inr ⟨x, Or.inr hx1, hx2, hx3⟩
        · rintro (⟨a, ha, _⟩ | ⟨x, hx1, hx2, hx3⟩)
          · exact absurd ha (by simp)
          · rcases hx1 with rfl | hx1
            · exact Or.inl ⟨x, rfl, hx3⟩
            · exact Or.inr ⟨x, hx1, hx2, hx3⟩
      | some a =>
        simp only [Option.some.injEq, List.mem_cons]
        constructor
        · rintro (⟨b, hb, hs⟩ | ⟨x, hx1, hx2, hx3⟩)
          · subst hb
            rcases (mem_sources_mergeInto a e s).mp hs with hs | hs
            · exact Or.inl ⟨a, rfl, hs⟩
            · exact Or.inr ⟨e, Or.inl rfl, hk, hs⟩
          · exact Or.inr ⟨x, Or.inr hx1, hx2, hx3⟩
        · rintro (⟨b, hb, hs⟩ | ⟨x, hx1, hx2, hx3⟩)
          · exact Or.inl ⟨mergeInto a e, rfl,
              (mem_sources_mergeInto a e s).mpr (Or.inl (hb ▸ hs))⟩
          · rcases hx1 with rfl | hx1
            · exact Or.inl ⟨mergeInto a x, rfl,
                (mem_sources_mergeInto a x s).mpr (Or.inr hx3)⟩
            · exact Or.inr ⟨x, hx1, hx2, hx3⟩
    · simp only [if_neg hk, List.mem_cons]
      constructor
      · rintro (⟨a, ha, hs⟩ | ⟨x, hx1, hx2, hx3⟩)
        · exact Or.inl ⟨a, ha, hs⟩
        · exact Or.inr ⟨x, Or.inr hx1, hx2, hx3⟩
      · rintro (⟨a, ha, hs⟩ | ⟨x, hx1, hx2, hx3⟩)
        · exact Or.inl ⟨a, ha, hs⟩
        · rcases hx1 with rfl | hx1
          · exact absurd hx2 hk
          · exact Or.inr ⟨x, hx1, hx2, hx3⟩

theorem lookup_foldl_descLen (es : List Entity) (acc : List (String × Entity))
    (k : String) (ent : Entity)
    (h : lookupKey (es.foldl mergeStep acc) k = some ent) :
    ent.description.length =
      (es.filter fun e => mergeKey e = k).foldl
        (fun m e => max m e.description.length)
        ((lookupKey acc k).elim 0 fun a => a.description.length) := by
  induction es generalizing acc with
  | nil =>
    simp only [List.foldl_nil] at h
    simp [h]
  | cons e t ih =>
    simp only [List.foldl_cons] at h
    have H := ih (mergeStep acc e) h
    rw [lookupKey_mergeStep] at H
    by_cases hk : mergeKey e = k
    · rw [List.filter_cons_of_pos (by simpa using hk)]
      simp only [if_pos hk] at H
      cases hx : lookupKey acc k with
      | none =>
        rw [hx] at H
        simpa [Nat.zero_max] using H
      | some a =>
        rw [hx] at H
        simp only [Option.elim_some, descLen_mergeInto] at H
        simpa using H
    · rw [List.filter_cons_of_neg (by simpa using hk)]
      simpa [if_neg hk] using H

theorem keysInv_mergeStep (acc : List (String × Entity)) (e : Entity)
    (hacc : ∀ p ∈ acc, mergeKey p.2 = p.1) :
    ∀ p ∈ mergeStep acc e, mergeKey p.2 = p.1 := by
  intro p hp
  cases hl : lookupKey acc (mergeKey e) with
  | none =>
    rw [mergeStep_of_lookup_none acc e hl] at hp
    rcases List.mem_append.mp hp with hp | hp
    · exact hacc p hp
    · simp only [List.mem_singleton] at hp
      subst hp
      rfl
  | some a =>
    rw [mergeStep_of_lookup_some acc e a hl] at hp
    rcases List.mem_map.mp hp with ⟨q, hq, rfl⟩
    by_cases hq1 : q.1 = mergeKey e
    · simp only [if_pos hq1, mergeKey_mergeInto]
      exact hacc q hq
    · simp only [if_neg hq1]
      exact hacc q hq

theorem keysInv_foldl (es : List Entity) (acc : List (String × Entity))
    (hacc : ∀ p ∈ acc, mergeKey p.2 = p.1) :
    ∀ p ∈ es.foldl mergeStep acc, mergeKey p.2 = p.1 := by
  induction es generalizing acc with
  | nil => exact hacc
  | cons e t ih => exact ih (mergeStep acc e) (keysInv_mergeStep acc e hacc)

theorem lookupKey_eq_none_iff (acc : List (String × Entity)) (k : String) :
    lookupKey acc k = none ↔ k ∉ acc.map (·.1) := by
  induction acc with
  | nil => simp [lookupKey]
  | cons p t ih =>
    by_cases hp : p.1 = k
    · simp [lookupKey, hp]
    · simp only [lookupKey, if_neg hp, List.map_cons, List.mem_cons, ih]
      constructor
      · rintro h (h1 | h1)
        · exact hp h1.symm
        · exact h h1
      · intro h h1
        exact h (Or.inr h1)

theorem nodupKeys_mergeStep (acc : List (String × Entity)) (e : Entity)
    (hacc : (acc.map (·.1)).Nodup) : ((mergeStep acc e).map (·.1)).Nodup := by
  cases hl : lookupKey acc (mergeKey e) with
  | none =>
    rw [mergeStep_of_lookup_none acc e hl]
    have hnm : mergeKey e ∉ acc.map (·.1) := (lookupKey_eq_none_iff acc _).mp hl
    simp only [List.map_append, List.map_cons, List.map_nil]
    rw [List.nodup_append]
    refine ⟨hacc, List.nodup_singleton _, ?_⟩
    intro a ha hb
    simp only [List.mem_singleton] at hb
    subst hb
    exact hnm ha
  | some a =>
    rw [mergeStep_of_lookup_some acc e a hl]
    have : ((acc.map fun p => if p.1 = mergeKey e then (p.1, mergeInto p.2 e) else p).map
        (·.1)) = acc.map (·.1) := by
      rw [List.map_map]
      apply List.map_congr_left
      intro p _
      by_cases hp : p.1 = mergeKey e <;> simp [hp]
    rw [this]
    exact hacc

theorem nodupKeys_foldl (es : List Entity) (acc : List (String × Entity))
    (hacc : (acc.map (·.1)).Nodup) : ((es.foldl mergeStep acc).map (·.1)).Nodup := by
  induction es generalizing acc with
  | nil => exact hacc
  | cons e t ih => exact ih (mergeStep acc e) (nodupKeys_mergeStep acc e hacc)

theorem mem_of_lookupKey (acc : List (String × Entity)) (k : String) (a : Entity)
    (h : lookupKey acc k = some a) : (k, a) ∈ acc := by
  induction acc with
  | nil => simp [lookupKey] at h
  | cons p t ih =>
    by_cases hp : p.1 = k
    · simp only [lookupKey, if_pos hp, Option.some.injEq] at h
      subst h
      exact List.mem_cons.mpr (Or.inl (by rw [← hp]))
    · rw [lookupKey, if_neg hp] at h
      exact List.mem_cons_of_mem _ (ih h)

theorem lookupKey_of_mem (acc : List (String × Entity)) (p : String × Entity)
    (hnd : (acc.map (·.1)).Nodup) (hp : p ∈ acc) : lookupKey acc p.1 = some p.2 := by
  induction acc with
  | nil => simp at hp
  | cons q t ih =>
    rcases List.mem_cons.mp hp with rfl | hp
    · simp [lookupKey]
    · have hq : ¬ q.1 = p.1 := by
        intro hq
        have : p.1 ∈ t.map (·.1) := List.mem_map_of_mem (·.1) hp
        rw [List.map_cons, List.nodup_cons] at hnd
        exact hnd.1 (hq ▸ this)
      rw [lookupKey, if_neg hq]
      exact ih (by rw [List.map_cons, List.nodup_cons] at hnd; exact hnd.2) hp

theorem mem_merge_of_lookup (lists : List (List Entity)) (k : String) (ent : Entity)
    (h : lookupKey (lists.flatten.foldl mergeStep []) k = some ent) :
    ent ∈ merge_entities lists ∧ mergeKey ent = k := by
  have hmem := mem_of_lookupKey _ _ _ h
  constructor
  · exact List.mem_map.mpr ⟨(k, ent), hmem, rfl⟩
  · exact keysInv_foldl lists.flatten [] (by simp) (k, ent) hmem

theorem lookup_of_mem_merge (lists : List (List Entity)) (r : Entity)
    (h : r ∈ merge_entities lists) :
    lookupKey (lists.flatten.foldl mergeStep []) (mergeKey r) = some r := by
  rcases List.mem_map.mp h with ⟨p, hp, rfl⟩
  have hk := keysInv_foldl lists.flatten [] (by simp) p hp
  rw [hk]
  exact lookupKey_of_mem _ p (nodupKeys_foldl lists.flatten [] (by simp)) hp

theorem max_foldl_base (f : Entity → Nat) (l : List Entity) (b : Nat) :
    l.foldl (fun m e => max m (f e)) b = max b (l.foldl (fun m e => max m (f e)) 0) := by
  induction l generalizing b with
  | nil => simp
  | cons x t ih =>
    simp only [List.foldl_cons]
    rw [ih (max b (f x)), ih (max 0 (f x))]
    simp [Nat.max_assoc]

theorem max_foldl_append (f : Entity → Nat) (l1 l2 : List Entity) :
    (l1 ++ l2).foldl (fun m e => max m (f e)) 0 =
      max (l1.foldl (fun m e => max m (f e)) 0) (l2.foldl (fun m e => max m (f e)) 0) := by
  rw [List.foldl_append, max_foldl_base]

/-- C2: merging never drops a source.  The merged output has pairwise
distinct merge keys, and every source of every input record appears in the
sources of the output record carrying that record's merge key. -/
theorem claim_C2_merge_never_drops_sources (entity_lists : List (List Entity)) :
    ((merge_entities entity_lists).map mergeKey).Nodup ∧
      ∀ e ∈ entity_lists.flatten, ∀ s ∈ e.sources,
        ∃ r ∈ merge_entities entity_lists, mergeKey r = mergeKey e ∧ s ∈ r.sources := by
  constructor
  · have h : (merge_entities entity_lists).map mergeKey =
        (entity_lists.flatten.foldl mergeStep []).map (·.1) := by
      unfold merge_entities
      rw [List.map_map]
      exact List.map_congr_left fun p hp =>
        keysInv_foldl entity_lists.flatten [] (by simp) p hp
    rw [h]
    exact nodupKeys_foldl entity_lists.flatten [] (by simp)
  · intro e he s hs
    cases hx : lookupKey (entity_lists.flatten.foldl mergeStep []) (mergeKey e) with
    | none =>
      exact absurd rfl (((lookup_foldl_none _ _ _).mp hx).2 e he)
    | some ent =>
      obtain ⟨hm, hk⟩ := mem_merge_of_lookup entity_lists (mergeKey e) ent hx
      refine ⟨ent, hm, hk, ?_⟩
      exact (lookup_foldl_sources _ [] _ _ hx s).mpr (Or.inr ⟨e, he, rfl, hs⟩)

/-- Witness for C2 at a concrete input. -/
theorem claim_C2_witness :
    ∃ r ∈ merge_entities [[⟨"John_Smith", "person", "ab", ["f1.md"]⟩],
        [⟨"john smith", "person", "xyz", ["f2.md"]⟩]],
      mergeKey r = mergeKey ⟨"john smith", "person", "xyz", ["f2.md"]⟩ ∧
        "f2.md" ∈ r.sources :=
  (claim_C2_merge_never_drops_sources
      [[⟨"John_Smith", "person", "ab", ["f1.md"]⟩],
        [⟨"john smith", "person", "xyz", ["f2.md"]⟩]]).2
    ⟨"john smith", "person", "xyz", ["f2.md"]⟩ (by decide) "f2.md" (by decide)

/-- Counterexample to C6 as stated: when two descriptions for the same
merge key tie in length, the merged description depends on the order of
the lists, so `merge([A, B])` and `merge([B, A])` do not agree on the
description of the common key. -/
theorem claim_C6_counterexample :
    ¬ ∀ r1 ∈ merge_entities [[⟨"x", "person", "ab", []⟩], [⟨"x", "person", "cd", []⟩]],
        ∀ r2 ∈ merge_entities [[⟨"x", "person", "cd", []⟩], [⟨"x", "person", "ab", []⟩]],
          mergeKey r1 = mergeKey r2 → r1.description = r2.description := by
  decide

/-- C6 (amended): `merge([A, B])` and `merge([B, A])` have the same merge
keys; records with equal keys have the same set of sources and
descriptions of equal length (each keeps a longest candidate description;
the description strings themselves may differ when two candidates tie in
length, since ties keep the earlier one). -/
theorem claim_C6_merge_commutes_amended (A B : List Entity) :
    (∀ k, (∃ r ∈ merge_entities [A, B], mergeKey r = k) ↔
        (∃ r ∈ merge_entities [B, A], mergeKey r = k)) ∧
      ∀ r1 ∈ merge_entities [A, B], ∀ r2 ∈ merge_entities [B, A],
        mergeKey r1 = mergeKey r2 →
          (∀ s, s ∈ r1.sources ↔ s ∈ r2.sources) ∧
            r1.description.length = r2.description.length := by
  have hflat1 : ([A, B] : List (List Entity)).flatten = A ++ B := by simp
  have hflat2 : ([B, A] : List (List Entity)).flatten = B ++ A := by simp
  have key_iff : ∀ (X : List (List Entity)) (k : String),
      (∃ r ∈ merge_entities X, mergeKey r = k) ↔
        ∃ e ∈ X.flatten, mergeKey e = k := by
    intro X k
    constructor
    · rintro ⟨r, hr, rfl⟩
      have hl := lookup_of_mem_merge X r hr
      by_contra hc
      push_neg at hc
      have : lookupKey (X.flatten.foldl mergeStep []) (mergeKey r) = none :=
        (lookup_foldl_none _ _ _).mpr ⟨rfl, fun e he => hc e he⟩
      rw [this] at hl
      cases hl
    · intro ⟨e, he, hk⟩
      cases hx : lookupKey (X.flatten.foldl mergeStep []) k with
      | none => exact absurd hk (((lookup_foldl_none _ _ _).mp hx).2 e he)
      | some ent =>
        obtain ⟨hm, hk2⟩ := mem_merge_of_lookup X k ent hx
        exact ⟨ent, hm, hk2⟩
  constructor
  · intro k
    rw [key_iff [A, B] k, key_iff [B, A] k, hflat1, hflat2]
    constructor
    · rintro ⟨e, he, hk⟩
      exact ⟨e, List.mem_append.mpr (List.mem_append.mp he).symm, hk⟩
    · rintro ⟨e, he, hk⟩
      exact ⟨e, List.mem_append.mpr (List.mem_append.mp he).symm, hk⟩
  · intro r1 h1 r2 h2 hk
    have hl1 := lookup_of_mem_merge [A, B] r1 h1
    have hl2 := lookup_of_mem_merge [B, A] r2 h2
    constructor
    · intro s
      rw [lookup_foldl_sources _ [] _ _ hl1 s, lookup_foldl_sources _ [] _ _ hl2 s]
      simp only [lookupKey, reduceCtorEq, false_and, and_false, exists_false, false_or,
        hflat1, hflat2]
      rw [hk]
      constructor
      · rintro ⟨e, he, hek, hes⟩
        exact ⟨e, List.mem_append.mpr (List.mem_append.mp he).symm, hek, hes⟩
      · rintro ⟨e, he, hek, hes⟩
        exact ⟨e, List.mem_append.mpr (List.mem_append.mp he).symm, hek, hes⟩
    · have hd1 := lookup_foldl_descLen _ [] _ _ hl1
      have hd2 := lookup_foldl_descLen _ [] _ _ hl2
      rw [hflat1] at hd1
      rw [hflat2] at hd2
      rw [hd1, hd2, hk]
      simp only [lookupKey, Option.elim_none, List.filter_append]
      rw [max_foldl_append, max_foldl_append, Nat.max_comm]

/-- Witness for the amended C6 at concrete inputs. -/
theorem claim_C6_witness :
    ("f2.md" ∈ (Entity.mk "x" "person" "cde" ["f1.md", "f2.md"]).sources ↔
        "f2.md" ∈ (Entity.mk "x" "person" "cde" ["f2.md", "f1.md"]).sources) ∧
      (Entity.mk "x" "person" "cde" ["f1.md", "f2.md"]).description.length =
        (Entity.mk "x" "person" "cde" ["f2.md", "f1.md"]).description.length :=
  have H := (claim_C6_merge_commutes_amended
      [⟨"x", "person", "ab", ["f1.md"]⟩] [⟨"x", "person", "cde", ["f2.md"]⟩]).2
    ⟨"x", "person", "cde", ["f1.md", "f2.md"]⟩ (by decide)
    ⟨"x", "person", "cde", ["f2.md", "f1.md"]⟩ (by decide) (by decide)
  ⟨H.1 "f2.md", H.2⟩

/-! ### Change tracker claims -/

/-- C5: the change-tracker filter returns exactly those candidate files
that have no stored record, or no longer exist / cannot be read, or whose
current content fingerprint differs from the stored one — as a
subsequence of the input (order preserved). -/
theorem claim_C5_filter_unprocessed (fs : List (String × FileData))
    (files : List String) (st : State) :
    (get_unprocessed_files fs files st).Sublist files ∧
      ∀ fp, fp ∈ get_unprocessed_files fs files st ↔
        fp ∈ files ∧
          (stateLookup st.processed_files fp = none ∨
            readFile fs fp = none ∨
            ∃ f stored, readFile fs fp = some f ∧
              stateLookup st.processed_files fp = some stored ∧
              compute_file_hash f.content ≠ stored.hash) := by
  constructor
  · exact List.filter_sublist _
  · intro fp
    rw [get_unprocessed_files, List.mem_filter]
    refine and_congr_right fun _ => ?_
    unfold has_file_changed
    cases hs : stateLookup st.processed_files fp with
    | none => simp [hs]
    | some stored =>
      cases hr : readFile fs fp with
      | none => simp [hr]
      | some f => simp [hr, bne_iff_ne]

theorem stateLookup_upsert_self (l : List (String × FileState)) (p : String)
    (v : FileState) : stateLookup (stateUpsert l p v) p = some v := by
  induction l with
  | nil => simp [stateUpsert, stateLookup]
  | cons q t ih =>
    by_cases hq : q.1 = p
    · simp [stateUpsert, stateLookup, hq]
    · simp [stateUpsert, stateLookup, hq, ih]

/-- C7: after `mark_file_processed` records a file's fingerprint,
re-checking the file with unmodified byte content reports it as
unchanged, whatever its new mtime is — only the content hash is
compared. -/
theorem claim_C7_change_detection_roundtrip (fs fs2 : List (String × FileData))
    (p : String) (st st2 : State) (now : String) (f f2 : FileData)
    (hread : readFile fs p = some f)
    (hmark : mark_file_processed fs p st now = some st2)
    (hread2 : readFile fs2 p = some f2)
    (hcontent : f2.content = f.content) :
    has_file_changed fs2 p st2 = false := by
  unfold mark_file_processed at hmark
  rw [hread] at hmark
  simp only [Option.map_some', Option.some.injEq] at hmark
  subst hmark
  unfold has_file_changed
  simp [stateLookup_upsert_self, hread2, hcontent]

/-- Witness for C7: the file content `[104, 105]` is marked, then
re-checked on a filesystem where only the mtime changed (5 became 99):
the file reports unchanged. -/
theorem claim_C7_witness :
    has_file_changed [("a.md", ⟨[104, 105], 99⟩)] "a.md"
      ⟨[("a.md", ⟨"a.md", compute_file_hash [104, 105], "t0"⟩)], none⟩ = false :=
  claim_C7_change_detection_roundtrip
    [("a.md", ⟨[104, 105], 5⟩)] [("a.md", ⟨[104, 105], 99⟩)] "a.md"
    ⟨[], none⟩ ⟨[("a.md", ⟨"a.md", compute_file_hash [104, 105], "t0"⟩)], none⟩
    "t0" ⟨[104, 105], 5⟩ ⟨[104, 105], 99⟩ rfl rfl rfl rfl

/-! ### Orchestrator claims -/

theorem processChunks_eq_chunks (extract : List String → List Entity) (bs : Nat) :
    ∀ fuel files, processChunks extract bs fuel files =
      ((chunksOf bs fuel files).map fun b =>
          processBatchEvents extract b ++ b.map Event.markProcessed).flatten := by
  intro fuel
  induction fuel with
  | zero => intro files; cases files <;> simp [processChunks, chunksOf]
  | succ n ih =>
    intro files
    cases files with
    | nil => simp [processChunks, chunksOf]
    | cons a t =>
      simp only [processChunks, chunksOf, List.map_cons, List.flatten_cons, ih,
        List.append_assoc]

theorem saveState_not_mem_processChunks (extract : List String → List Entity)
    (bs : Nat) : ∀ fuel files, Event.saveState ∉ processChunks extract bs fuel files := by
  intro fuel
  induction fuel with
  | zero => intro files; cases files <;> simp [processChunks]
  | succ n ih =>
    intro files
    cases files with
    | nil => simp [processChunks]
    | cons a t =>
      simp only [processChunks, List.mem_append]
      rintro ((h | h) | h)
      · simp only [processBatchEvents, List.mem_flatten, List.mem_map] at h
        rcases h with ⟨l, ⟨e, _, rfl⟩, hl⟩
        rcases List.mem_map.mp hl with ⟨s, _, heq⟩
        cases heq
      · rcases List.mem_map.mp h with ⟨s, _, heq⟩
        cases heq
      · exact ih _ h

/-- Counterexample to C8 as stated: a run of two singleton batches emits
its only `save_state` after both batches; in particular, after the first
batch completes (the first event of the trace), no tracker commit has
happened, so an interruption there loses the tracker updates of every
completed batch, not at most one. -/
theorem claim_C8_counterexample :
    process_directory_events (fun _ => []) ["a.md", "b.md"] 1 =
        [Event.markProcessed "a.md", Event.markProcessed "b.md", Event.saveState] ∧
      (chunksOf 1 2 ["a.md", "b.md"]).length = 2 ∧
      (process_directory_events (fun _ => []) ["a.md", "b.md"] 1).count
          Event.saveState = 1 ∧
      Event.saveState ∉
        (process_directory_events (fun _ => []) ["a.md", "b.md"] 1).take 2 := by
  decide

/-- C8 (amended): within each batch, every file is marked processed (in
memory) only after all of that batch's note writes, and the batches run
in discovery order; but the tracker state is committed to disk exactly
once per non-empty run, after all batches — not once per batch.  A run
interrupted mid-way therefore persists no tracker updates from this run,
and only batches committed by a previously completed run are skipped. -/
theorem claim_C8_per_batch_marks_single_commit (extract : List String → List Entity)
    (files : List String) (bs : Nat) (_bs_pos : 1 ≤ bs) :
    process_directory_events extract files bs =
        (if files = [] then []
         else ((chunksOf bs files.length files).map fun b =>
             processBatchEvents extract b ++ b.map Event.markProcessed).flatten ++
           [Event.saveState]) ∧
      (process_directory_events extract files bs).count Event.saveState =
        if files = [] then 0 else 1 := by
  constructor
  · unfold process_directory_events
    split
    · rfl
    · rw [processChunks_eq_chunks]
  · unfold process_directory_events
    split
    · rfl
    · rw [List.count_append,
        List.count_eq_zero.mpr (saveState_not_mem_processChunks extract bs _ _)]
      simp

/-- Witness for the amended C8 at a concrete two-batch run. -/
theorem claim_C8_witness :
    process_directory_events (fun _ => []) ["a.md", "b.md", "c.md"] 2 =
        (if (["a.md", "b.md", "c.md"] : List String) = [] then []
         else ((chunksOf 2 3 ["a.md", "b.md", "c.md"]).map fun b =>
             processBatchEvents (fun _ => []) b ++ b.map Event.markProcessed).flatten ++
           [Event.saveState]) ∧
      (process_directory_events (fun _ => []) ["a.md", "b.md", "c.md"] 2).count
          Event.saveState =
        if (["a.md", "b.md", "c.md"] : List String) = [] then 0 else 1 :=
  claim_C8_per_batch_marks_single_commit (fun _ => []) ["a.md", "b.md", "c.md"] 2
    (by decide)

/-! ### Response parser claims -/

theorem processItem_shape (fb : List String) (ms : List (String × Json))
    (t0 n0 s0 d0 : String)
    (ht : objGet ms "type" (.str "") = .str t0)
    (hn : objGet ms "name" (.str "") = .str n0)
    (hs : objGet ms "source" (.str "") = .str s0)
    (hd : objGet ms "description" (.str "") = .str d0) :
    processItem fb (.obj ms) =
      if pyLower t0 ∉ (["person", "organization", "topic"] : List String) then
        .ok none
      else if pyStrip n0 = "" then .ok none
      else
        .ok (some ⟨pyStrip n0, pyLower t0, d0,
          if s0 ≠ "" then [s0]
          else
            match fb with
            | [] => []
            | f :: _ => if f ≠ "" then [f] else []⟩) := by
  simp only [processItem, ht, hn, hs, hd]
  by_cases h1 : pyLower t0 ∉ (["person", "organization", "topic"] : List String)
  · simp [h1]
  · simp only [if_neg h1]
    by_cases h2 : pyStrip n0 = ""
    · simp [h2]
    · simp only [if_neg h2]
      by_cases hs0 : s0 = ""
      · subst hs0
        cases fb with
        | nil => simp [attributedSource, pyTruthy]
        | cons f ft =>
          by_cases hf : f = ""
          · simp [attributedSource, pyTruthy, hf]
          · simp [attributedSource, pyTruthy, hf]
      · simp [attributedSource, pyTruthy, hs0]

/-- C9: per-item parser semantics — the item is dropped when the type
tag does not case-insensitively match a known tag, dropped when the name
is empty after trimming (an absent name defaults to the empty string and
is dropped too), the description defaults to the empty string when
absent (`objGet` with the empty-string default), and the source is the
explicit non-empty source field, else the first fallback source when one
exists, else nothing. -/
theorem claim_C9_item_semantics (fb : List String) (ms : List (String × Json))
    (t0 n0 s0 d0 : String)
    (ht : objGet ms "type" (.str "") = .str t0)
    (hn : objGet ms "name" (.str "") = .str n0)
    (hs : objGet ms "source" (.str "") = .str s0)
    (hd : objGet ms "description" (.str "") = .str d0) :
    processItem fb (.obj ms) =
      if pyLower t0 ∉ (["person", "organization", "topic"] : List String) then
        .ok none
      else if pyStrip n0 = "" then .ok none
      else
        .ok (some ⟨pyStrip n0, pyLower t0, d0,
          if s0 ≠ "" then [s0]
          else
            match fb with
            | [] => []
            | f :: _ => if f ≠ "" then [f] else []⟩) :=
  processItem_shape fb ms t0 n0 s0 d0 ht hn hs hd

/-- Witness for C9: a capitalised type tag, a name needing trimming, no
description, no explicit source, one fallback source. -/
theorem claim_C9_witness :
    processItem ["f.md"]
        (.obj [("type", Json.str "Person"), ("name", Json.str " Ada ")]) =
      .ok (some ⟨"Ada", "person", "", ["f.md"]⟩) :=
  (claim_C9_item_semantics ["f.md"]
      [("type", Json.str "Person"), ("name", Json.str " Ada ")]
      "Person" " Ada " "" "" rfl rfl rfl rfl).trans rfl

theorem processItem_ok_of_wellShaped (fb : List String) (ms : List (String × Json))
    (h : WellShapedItem ms) : ∃ r, processItem fb (.obj ms) = .ok r := by
  obtain ⟨⟨t0, ht⟩, ⟨n0, hn⟩, ⟨s0, hs⟩, ⟨d0, hd⟩⟩ := h
  rw [processItem_shape fb ms t0 n0 s0 d0 ht hn hs hd]
  split_ifs <;> exact ⟨_, rfl⟩

theorem entitiesLoop_ok_of_wellShaped (fb : List String) :
    ∀ items : List Json,
      (∀ item ∈ items, ∃ ms, item = .obj ms ∧ WellShapedItem ms) →
      ∃ es, entitiesLoop fb items = .ok es := by
  intro items
  induction items with
  | nil => exact fun _ => ⟨[], rfl⟩
  | cons it rest ih =>
    intro h
    obtain ⟨ms, rfl, hws⟩ := h _ (List.mem_cons_self _ _)
    obtain ⟨r, hr⟩ := processItem_ok_of_wellShaped fb ms hws
    obtain ⟨es, hes⟩ := ih fun x hx => h x (List.mem_cons_of_mem _ hx)
    cases r with
    | none => exact ⟨es, by simp [entitiesLoop, hr, hes]⟩
    | some ent => exact ⟨ent :: es, by simp [entitiesLoop, hr, hes]⟩

/-- Counterexample to C3 as stated: the raw response `"5"` decodes
successfully (to the number 5), and the item loop then raises
`TypeError` (`for item in 5`), which the function does not catch — the
parser is not a total boundary over every raw response string. -/
theorem claim_C3_counterexample :
    parse_entities_response "5" [] = Except.error PyErr.typeError := rfl

/-- C3 (amended): when neither the strict decode of the whole text nor
the decode of the bracket-bounded slice succeeds, the parser logs one
warning carrying the text truncated to 200 characters and returns the
empty list; and no exception escapes provided the successful decode
yields a JSON array of objects whose type/name/source/description
fields are strings whenever present.  (Other decodable payloads — a bare
number, an object, an array of non-objects — raise `TypeError` or
`AttributeError` past the boundary, as the counterexample shows.) -/
theorem claim_C3_parser_boundary_amended (response : String) (fb : List String) :
    (jsonLoads response = none →
      (∀ sub, bracketSlice response = some sub → jsonLoads sub = none) →
      parse_entities_response response fb = .ok ([parseWarning response], [])) ∧
      ∀ items, jsonLoads response = some (Json.arr items) →
        (∀ item ∈ items, ∃ ms, item = .obj ms ∧ WellShapedItem ms) →
        ∃ es, parse_entities_response response fb = .ok ([], es) := by
  constructor
  · intro h1 h2
    cases hb : bracketSlice response with
    | none => simp only [parse_entities_response, h1, hb]
    | some sub => simp only [parse_entities_response, h1, hb, h2 sub hb]
  · intro items h1 h2
    obtain ⟨es, hes⟩ := entitiesLoop_ok_of_wellShaped fb items h2
    exact ⟨es, by simp only [parse_entities_response, h1, entitiesOfData, hes]⟩

/-- Witness for the amended C3 on a response that fails both decodes. -/
theorem claim_C3_witness :
    parse_entities_response "not json" [] =
      .ok ([parseWarning "not json"], []) :=
  (claim_C3_parser_boundary_amended "not json" []).1 rfl
    (fun sub h => by
      rw [show bracketSlice "not json" = none from rfl] at h
      exact Option.noConfusion h)

theorem processItem_sources_le_one (fb : List String) (item : Json) (ent : Entity)
    (h : processItem fb item = .ok (some ent)) : ent.sources.length ≤ 1 := by
  unfold processItem at h
  repeat' split at h
  all_goals simp_all
  all_goals (subst h; simp)

theorem entitiesLoop_sources_le_one (fb : List String) :
    ∀ (items : List Json) (es : List Entity), entitiesLoop fb items = .ok es →
      ∀ e ∈ es, e.sources.length ≤ 1 := by
  intro items
  induction items with
  | nil =>
    intro es h
    simp only [entitiesLoop, Except.ok.injEq] at h
    subst h
    simp
  | cons it rest ih =>
    intro es h
    cases hpi : processItem fb it with
    | error e => simp [entitiesLoop, hpi] at h
    | ok r =>
      cases r with
      | none =>
        simp only [entitiesLoop, hpi] at h
        exact ih es h
      | some ent =>
        cases hrest : entitiesLoop fb rest with
        | error e2 => simp [entitiesLoop, hpi, hrest] at h
        | ok es2 =>
          simp only [entitiesLoop, hpi, hrest, Except.ok.injEq] at h
          subst h
          intro e he
          rcases List.mem_cons.mp he with rfl | he
          · exact processItem_sources_le_one fb it e hpi
          · exact ih es2 hrest e he

theorem entitiesOfData_sources_le_one (fb : List String) (data : Json)
    (es : List Entity) (h : entitiesOfData fb data = .ok es) :
    ∀ e ∈ es, e.sources.length ≤ 1 := by
  cases data with
  | arr items => exact entitiesLoop_sources_le_one fb items es h
  | str s =>
    by_cases hs : s = ""
    · simp only [entitiesOfData, if_pos hs, Except.ok.injEq] at h
      subst h
      simp
    · simp [entitiesOfData, hs] at h
  | obj ms =>
    cases ms with
    | nil =>
      simp only [entitiesOfData, Except.ok.injEq] at h
      subst h
      simp
    | cons a t => simp [entitiesOfData] at h
  | null => simp [entitiesOfData] at h
  | bool b => simp [entitiesOfData] at h
  | num m p => simp [entitiesOfData] at h
  | nan => simp [entitiesOfData] at h
  | inf b => simp [entitiesOfData] at h

/-- C10: every entity record the parser returns carries at most one
source identifier — multi-source records arise only from merging. -/
theorem claim_C10_single_source (response : String) (fb : List String)
    (w : List String) (es : List Entity)
    (h : parse_entities_response response fb = .ok (w, es)) :
    ∀ e ∈ es, e.sources.length ≤ 1 := by
  unfold parse_entities_response at h
  cases h1 : jsonLoads response with
  | some data =>
    simp only [h1] at h
    cases h2 : entitiesOfData fb data with
    | error e => simp [h2] at h
    | ok es2 =>
      simp only [h2, Except.ok.injEq, Prod.mk.injEq] at h
      obtain ⟨-, rfl⟩ := h
      exact entitiesOfData_sources_le_one fb data es2 h2
  | none =>
    simp only [h1] at h
    cases hb : bracketSlice response with
    | none =>
      simp only [hb, Except.ok.injEq, Prod.mk.injEq] at h
      obtain ⟨-, rfl⟩ := h
      simp
    | some sub =>
      simp only [hb] at h
      cases h3 : jsonLoads sub with
      | none =>
        simp only [h3, Except.ok.injEq, Prod.mk.injEq] at h
        obtain ⟨-, rfl⟩ := h
        simp
      | some data =>
        simp only [h3] at h
        cases h4 : entitiesOfData fb data with
        | error e => simp [h4] at h
        | ok es2 =>
          simp only [h4, Except.ok.injEq, Prod.mk.injEq] at h
          obtain ⟨-, rfl⟩ := h
          exact entitiesOfData_sources_le_one fb data es2 h4

/-! ### Note synthesis claims -/

theorem isPrefixOf_iff_exists (l1 l2 : List Char) :
    l1.isPrefixOf l2 = true ↔ ∃ post, l2 = l1 ++ post := by
  induction l1 generalizing l2 with
  | nil => simp [List.isPrefixOf]
  | cons a t ih =>
    cases l2 with
    | nil => simp [List.isPrefixOf]
    | cons b t2 =>
      simp only [List.isPrefixOf, Bool.and_eq_true, beq_iff_eq, ih, List.cons_append,
        List.cons.injEq]
      constructor
      · rintro ⟨rfl, p, rfl⟩
        exact ⟨p, rfl, rfl⟩
      · rintro ⟨p, rfl, rfl⟩
        exact ⟨rfl, p, rfl⟩

theorem listContainsSub_iff (hay needle : List Char) :
    listContainsSub hay needle = true ↔ ∃ pre post, hay = pre ++ needle ++ post := by
  induction hay with
  | nil =>
    simp only [listContainsSub, decide_eq_true_eq]
    constructor
    · intro h
      exact ⟨[], [], by simp [h]⟩
    · rintro ⟨pre, post, h⟩
      rcases List.append_eq_nil.mp (List.append_eq_nil.mp h.symm).1 with ⟨-, h2⟩
      exact h2
  | cons c t ih =>
    simp only [listContainsSub, Bool.or_eq_true, ih, isPrefixOf_iff_exists]
    constructor
    · rintro (⟨post, h⟩ | ⟨pre, post, h⟩)
      · exact ⟨[], post, by simpa using h⟩
      · exact ⟨c :: pre, post, by simp [h]⟩
    · rintro ⟨pre, post, h⟩
      cases pre with
      | nil => exact Or.inl ⟨post, by simpa using h⟩
      | cons p pt =>
        right
        injection h with h1 h2
        exact ⟨pt, post, h2⟩

theorem strContains_parts (s n : String) (pre post : List Char)
    (h : s.data = pre ++ n.data ++ post) : strContains s n = true :=
  (listContainsSub_iff s.data n.data).mpr ⟨pre, post, h⟩

theorem create_new_note_contains_src (e : Entity) (src : String) :
    strContains (create_new_note e src) src = true := by
  apply strContains_parts _ _
    (("---\nsources: " ++ jsonDumpStringList [src] ++ "\n---\n\n# " ++ e.name ++ "\n\n" ++
      (if e.description ≠ "" then e.description ++ "\n" else "") ++
      "\n## Sources\n\n- ").data) ("\n".data)
  unfold create_new_note
  by_cases hd : e.description ≠ "" <;>
    simp [hd, String.data_append, List.append_assoc]

theorem create_new_note_contains_desc (e : Entity) (src : String)
    (hd : e.description ≠ "") :
    strContains (create_new_note e src) e.description = true := by
  apply strContains_parts _ _
    (("---\nsources: " ++ jsonDumpStringList [src] ++ "\n---\n\n# " ++ e.name ++
      "\n\n").data)
    (("\n" ++ "\n## Sources\n\n- " ++ src ++ "\n").data)
  unfold create_new_note
  simp [hd, String.data_append, List.append_assoc]

/-- Counterexample to C1 as stated: start from an existing note for the
entity that does not yet reference source `b.md` (here the note
`create_new_note` built for source `a.md`, with no description), and
apply `create_or_update_note` twice for the same entity — now carrying
description `D` — and source `b.md`.  The first application splices in
the source but not the description; the second application finds the
source present and the description missing, so it performs another
write, appending `D`: the note is not byte-identical after the second
application, and the second application is not a no-op. -/
theorem claim_C1_counterexample :
    applyNote (applyNote (some (create_new_note ⟨"X", "person", "", []⟩ "a.md"))
          ⟨"X", "person", "D", []⟩ "b.md")
        ⟨"X", "person", "D", []⟩ "b.md" ≠
      applyNote (some (create_new_note ⟨"X", "person", "", []⟩ "a.md"))
        ⟨"X", "person", "D", []⟩ "b.md" ∧
      create_or_update_note
          (applyNote (some (create_new_note ⟨"X", "person", "", []⟩ "a.md"))
            ⟨"X", "person", "D", []⟩ "b.md")
          ⟨"X", "person", "D", []⟩ "b.md" true ≠ none := by
  decide

/-- C1 (amended): note synthesis is idempotent when the first
application wrote the note from scratch — a freshly created note
contains the source line and the description, so the second application
performs no write — and, in general, an application performs no write
exactly in the claimed no-op case: the source already occurs in the note
and the description is empty or already contained.  When the first
application instead spliced a new source into an existing note lacking
the description, the second application appends the description once
(the counterexample), so byte-stability starts one application later. -/
theorem claim_C1_idempotent_amended (entity : Entity) (src : String) (c : String) :
    create_or_update_note (some (create_new_note entity src)) entity src true = none ∧
      (strContains c src = true →
        entity.description = "" ∨ strContains c entity.description = true →
        create_or_update_note (some c) entity src true = none) := by
  constructor
  · have h1 := create_new_note_contains_src entity src
    simp only [create_or_update_note, if_true, h1, if_pos rfl]
    by_cases hd : entity.description = ""
    · simp [hd]
    · simp [hd, create_new_note_contains_desc entity src hd]
  · intro h1 h2
    simp only [create_or_update_note, if_true, h1, if_pos rfl]
    rcases h2 with h2 | h2
    · simp [h2]
    · simp [h2]

/-- Witness for the amended C1: a note that already contains both the
source and the description is left untouched. -/
theorem claim_C1_witness :
    create_or_update_note (some "xx a.md D yy") ⟨"X", "person", "D", []⟩ "a.md" true =
      none :=
  (claim_C1_idempotent_amended ⟨"X", "person", "D", []⟩ "a.md" "xx a.md D yy").2
    (by decide) (Or.inr (by decide))

/-- C4 evaluated at its failing input (code bug): take the note
`create_new_note` produces for source `a.md` — whose frontmatter list
and section list both read `a.md` — and let the core add the genuinely
new source `b.md` through `create_or_update_note`.  The update writes
`update_note_with_source`, whose frontmatter edit drops the quotes of
the existing entry (`sources: [a.md, "b.md"]`): the metadata list no
longer decodes as the JSON string list the writer itself produces, while
the sources section now lists both `b.md` and `a.md` — the two lists are
not kept in sync. -/
theorem claim_C4_sync_violation :
    frontmatter_sources (create_new_note ⟨"X", "person", "", []⟩ "a.md") =
        some ["a.md"] ∧
      section_sources (create_new_note ⟨"X", "person", "", []⟩ "a.md") = ["a.md"] ∧
      create_or_update_note (some (create_new_note ⟨"X", "person", "", []⟩ "a.md"))
          ⟨"X", "person", "", []⟩ "b.md" true =
        some (update_note_with_source (create_new_note ⟨"X", "person", "", []⟩ "a.md")
          ⟨"X", "person", "", []⟩ "b.md") ∧
      (pySplit (update_note_with_source (create_new_note ⟨"X", "person", "", []⟩ "a.md")
          ⟨"X", "person", "", []⟩ "b.md") "\n").getD 1 "" =
        "sources: [a.md, \"b.md\"]" ∧
      frontmatter_sources (update_note_with_source
          (create_new_note ⟨"X", "person", "", []⟩ "a.md")
          ⟨"X", "person", "", []⟩ "b.md") = none ∧
      section_sources (update_note_with_source
          (create_new_note ⟨"X", "person", "", []⟩ "a.md")
          ⟨"X", "person", "", []⟩ "b.md") = ["b.md", "a.md"] := by
  decide

/-- Witness for C10 on a concrete parse. -/
theorem claim_C10_witness :
    (Entity.mk "Bob" "person" "" ["f1.md"]).sources.length ≤ 1 :=
  claim_C10_single_source "[\x7b\"type\": \"person\", \"name\": \"Bob\"\x7d]"
    ["f1.md", "f2.md"] [] [⟨"Bob", "person", "", ["f1.md"]⟩] rfl
    ⟨"Bob", "person", "", ["f1.md"]⟩ (by decide)

end Mkgraph
